import Mathlib

/-
Verification of the CSV speaker-evaluation pipeline (Header Validator,
Grouper, the two Rankers and the Evaluator).

The embedding follows the TypeScript source closely:
  * CSV rows are lists of string fields; reading a field past the end of a
    row yields the JavaScript value `undefined`, modelled as `none` of
    `Option String`.
  * JavaScript objects used as string-keyed maps (`ISpeaker`,
    `filteredSpeakerType`) are modelled as association lists in property
    insertion order; setting an existing key updates the value in place,
    setting a fresh key appends at the end.  (Speaker names in the data are
    ordinary non-index-like strings, for which JavaScript property
    enumeration order is insertion order.)
  * `parseInt` and numeric addition are modelled over `Option Int`, with
    `none` playing the role of `NaN`; `NaN` propagates through `+` and makes
    every comparison of the sort comparator return a value that is not
    greater than zero, so a stable sort keeps the relative order of the
    elements involved.
  * `Array.prototype.sort` (stable since ES2019) is modelled as a stable
    insertion sort driven by the boolean test "comparator result is not
    greater than zero".
  * The `TypeError` raised when a zero-row table makes the grouping code
    index into `undefined` is modelled with `Except Unit`; the in-place
    `shift()` mutation of the input tables is modelled by returning the
    final state of the table list next to the grouped result.
-/

/-- One CSV row: an ordered sequence of string fields. -/
abbrev Row := List String

/-- One parsed CSV table: an ordered sequence of rows. -/
abbrev Table := List Row

/-- Modelled from the spec: the `ColumnDefinitions` enum is imported from
`./ts/enums`, a file absent from the repository snapshot.  Per the spec the
`Speaker` label sits at fixed zero-based column position 0. -/
def ColumnDefinitions.Speaker : Nat := 0

/-- Modelled from the spec: fixed zero-based column position 1 for `Topic`. -/
def ColumnDefinitions.Topic : Nat := 1

/-- Modelled from the spec: fixed zero-based column position 2 for `Date`. -/
def ColumnDefinitions.Date : Nat := 2

/-- Modelled from the spec: fixed zero-based column position 3 for `Words`. -/
def ColumnDefinitions.Words : Nat := 3

/-- `ISpeach` of `src/ts/interfaces.ts`.  Each field holds the string read
from the row at the corresponding fixed column, or `none` when the row was
too short there (JavaScript `undefined`). -/
structure ISpeach where
  topic : Option String
  date : Option String
  words : Option String
deriving DecidableEq

/-- One value of the `ISpeaker` map: the speaker's `name` (the raw field,
possibly `undefined`) and the ordered list of speeches. -/
structure SpeakerEntry where
  name : Option String
  speaches : List ISpeach
deriving DecidableEq

/-- `ISpeaker` of `src/ts/interfaces.ts`: a string-keyed object mapping a
speaker name to its entry, in property insertion order. -/
abbrev ISpeaker := List (String × SpeakerEntry)

/-- The two literal values of the `option` field of `IFilterOptions`. -/
inductive FilterOption where
  | filterByYear
  | filterByTopic
deriving DecidableEq

/-- The `number | string` union of the `value` field of `IFilterOptions`. -/
inductive FilterValue where
  | num (n : Int)
  | str (s : String)
deriving DecidableEq

/-- `IFilterOptions` of `src/ts/interfaces.ts`. -/
structure IFilterOptions where
  option : FilterOption
  value : FilterValue
deriving DecidableEq

/-- The object serialized by `evaluate`; each field is a speaker name or
`null`. -/
structure EvaluationResult where
  mostSpeaches : Option String
  mostSecurity : Option String
  leastWordy : Option String
deriving DecidableEq

/-- Property read on a string-keyed JavaScript object: the value stored at
key `k`, or `none` when the property is absent. -/
def objGet {β : Type} (m : List (String × β)) (k : String) : Option β :=
  (m.find? (fun p => p.1 = k)).map Prod.snd

/-- Property write on a string-keyed JavaScript object: update the entry
with key `k` in place when present, otherwise append the new property at
the end (insertion order). -/
def objUpsert {β : Type} : List (String × β) → String → β → List (String × β)
  | [], k, v => [(k, v)]
  | p :: m, k, v => if p.1 = k then (k, v) :: m else p :: objUpsert m k v

/-- Insert `a` into `l` in front of the first element `b` with `le a b`;
the inner step of a stable insertion sort. -/
def sortInsert {α : Type} (le : α → α → Bool) (a : α) : List α → List α
  | [] => [a]
  | b :: l => if le a b then a :: b :: l else b :: sortInsert le a l

/-- Stable sort modelling `Array.prototype.sort` with a comparator `cmp`:
`le a b` stands for "`cmp a b` is not greater than zero", the test under
which a stable sort keeps `a` before `b` (a `NaN` comparator value is not
greater than zero, so it also keeps the order). -/
def jsSort {α : Type} (le : α → α → Bool) : List α → List α
  | [] => []
  | a :: l => sortInsert le a (jsSort le l)

/-- Value of a decimal digit character. -/
def digitVal (c : Char) : Option Nat :=
  if c.isDigit then some (c.toNat - 48) else none

/-- Value of a hexadecimal digit character. -/
def hexDigitVal (c : Char) : Option Nat :=
  if c.isDigit then some (c.toNat - 48)
  else if decide ('a' ≤ c) && decide (c ≤ 'f') then some (c.toNat - 87)
  else if decide ('A' ≤ c) && decide (c ≤ 'F') then some (c.toNat - 55)
  else none

/-- Longest prefix of digit values accepted by `f`. -/
def takeDigits (f : Char → Option Nat) : List Char → List Nat
  | [] => []
  | c :: cs =>
    match f c with
    | some d => d :: takeDigits f cs
    | none => []

/-- Accumulate a digit list in the given base. -/
def digitsToNat (base : Nat) (ds : List Nat) : Nat :=
  ds.foldl (fun a d => a * base + d) 0

/-- JavaScript `parseInt(s)` with no radix argument: skip leading
whitespace, read an optional sign, then the longest prefix of hexadecimal
digits after a `0x`/`0X` prefix or of decimal digits otherwise; `none`
(`NaN`) when no digit is read. -/
def jsParseIntStr (s : String) : Option Int :=
  let cs := s.toList.dropWhile Char.isWhitespace
  let signed : Int × List Char :=
    match cs with
    | '-' :: rest => (-1, rest)
    | '+' :: rest => (1, rest)
    | _ => (1, cs)
  let body : Nat × List Nat :=
    match signed.2 with
    | '0' :: 'x' :: rest => (16, takeDigits hexDigitVal rest)
    | '0' :: 'X' :: rest => (16, takeDigits hexDigitVal rest)
    | rest => (10, takeDigits digitVal rest)
  match body.2 with
  | [] => none
  | ds => some (signed.1 * (digitsToNat body.1 ds : Int))

/-- `parseInt` applied to a possibly-`undefined` field (`parseInt(undefined)`
coerces to the string "undefined" and yields `NaN`). -/
def jsParseInt (w : Option String) : Option Int :=
  w.bind jsParseIntStr

/-- JavaScript numeric addition with `NaN` (`none`) propagation. -/
def jsAdd (a b : Option Int) : Option Int :=
  match a, b with
  | some x, some y => some (x + y)
  | _, _ => none

/-- Modelled from the spec: `new Date(s).getFullYear()` is host behaviour,
not repository code; per the spec, by-year filtering uses "the calendar
year parsed from `date`".  For the `YYYY-MM-DD` texts of the data this is
the leading four-digit year; a missing field or a text without such a year
is an invalid date, whose year is `NaN` (`none`). -/
def jsDateFullYear (d : Option String) : Option Int :=
  match d with
  | none => none
  | some s =>
    match s.toList with
    | a :: b :: c :: e :: _ =>
      match digitVal a, digitVal b, digitVal c, digitVal e with
      | some x, some y, some z, some w =>
        some (((x * 10 + y) * 10 + z) * 10 + w : Nat)
      | _, _, _, _ => none
    | _ => none

/-- The display key under which a speaker entry is stored in the ranking
objects: `obj[entry.name]` coerces an `undefined` name to the property key
"undefined". -/
def dispName (sp : SpeakerEntry) : String :=
  sp.name.getD "undefined"

/-- The reducer of `getLeastWordySpeaker`:
`(previousValue, currentValue) => previousValue + parseInt(currentValue.words)`. -/
def addWords (acc : Option Int) (s : ISpeach) : Option Int :=
  jsAdd acc (jsParseInt s.words)

/-- The `reduce` of `getLeastWordySpeaker`: sum of `parseInt(words)` over
the speeches, starting from 0; `NaN` propagates. -/
def totalWords (l : List ISpeach) : Option Int :=
  l.foldl addWords (some 0)

/-- The `speakersByWords` object of `getLeastWordySpeaker`: one property
per speaker, in enumeration order, holding the speaker's total words. -/
def speakersByWords (speakers : ISpeaker) : List (String × Option Int) :=
  speakers.foldl (fun m p => objUpsert m (dispName p.2) (totalWords p.2.speaches)) []

/-- Comparator test for `(a, b) => a[1] - b[1]`: keep `a` before `b`
unless the difference is greater than zero (`NaN` keeps the order). -/
def ascKeep (a b : String × Option Int) : Bool :=
  match a.2, b.2 with
  | some x, some y => !(decide (x - y > 0))
  | _, _ => true

/-- `getLeastWordySpeaker` of the source: build `speakersByWords`, return
`null` when it has no entries, otherwise sort the entries ascending by
total and return the first key. -/
def getLeastWordySpeaker (speakers : ISpeaker) : Option String :=
  let byWords := speakersByWords speakers
  if byWords.isEmpty then none
  else (jsSort ascKeep byWords).head?.map Prod.fst

/-- The row filter applied inside `filterForSpeakers`: strict equality of
`new Date(date).getFullYear()` with a numeric target, or of `topic` with a
string target (strict equality across types, or with `undefined` or `NaN`
on the left, is false). -/
def matchesFilter (fo : IFilterOptions) (s : ISpeach) : Bool :=
  match fo.option with
  | FilterOption.filterByYear =>
    match jsDateFullYear s.date, fo.value with
    | some y, FilterValue.num n => decide (y = n)
    | _, _ => false
  | FilterOption.filterByTopic =>
    match s.topic, fo.value with
    | some t, FilterValue.str v => decide (t = v)
    | _, _ => false

/-- The body of the speaker loop of `filterForSpeakers`: count the
speeches matching the filter and store the count under the speaker's name
only when it is positive. -/
def filterStep (fo : IFilterOptions) (m : List (String × Nat)) (p : String × SpeakerEntry) :
    List (String × Nat) :=
  let n := (p.2.speaches.filter (matchesFilter fo)).length
  if 0 < n then objUpsert m (dispName p.2) n else m

/-- `filterForSpeakers` of the source. -/
def filterForSpeakers (speakers : ISpeaker) (fo : IFilterOptions) : List (String × Nat) :=
  speakers.foldl (filterStep fo) []

/-- Comparator test for `(a, b) => b[1] - a[1]`: keep `a` before `b`
unless `b`'s count is greater. -/
def descKeep (a b : String × Nat) : Bool :=
  decide (b.2 ≤ a.2)

/-- `getFilteredSpeaker` of the source: return `null` when no speaker has a
positive match count, otherwise sort the counts descending and return the
first key. -/
def getFilteredSpeaker (speakers : ISpeaker) (fo : IFilterOptions) : Option String :=
  let fs := filterForSpeakers speakers fo
  if fs.isEmpty then none
  else (jsSort descKeep fs).head?.map Prod.fst

/-- `validateCsvHeader` of the source: the four fixed positions must hold
the four literal labels; a read past the end of the row yields `undefined`,
which differs from every label. -/
def validateCsvHeader (header : Row) : Bool :=
  decide (header.get? ColumnDefinitions.Speaker = some "Speaker") &&
  decide (header.get? ColumnDefinitions.Topic = some "Topic") &&
  decide (header.get? ColumnDefinitions.Date = some "Date") &&
  decide (header.get? ColumnDefinitions.Words = some "Words")

/-- The `ISpeach` built from a data row by `sortAndGroupData`. -/
def mkSpeach (rowData : Row) : ISpeach :=
  { topic := rowData.get? ColumnDefinitions.Topic
    date := rowData.get? ColumnDefinitions.Date
    words := rowData.get? ColumnDefinitions.Words }

/-- The body of the row loop of `sortAndGroupData`: create the speaker's
entry on first sight, otherwise append the speech to the existing entry. -/
def processRow (speakers : ISpeaker) (rowData : Row) : ISpeaker :=
  let speaker := rowData.get? ColumnDefinitions.Speaker
  let key := speaker.getD "undefined"
  match objGet speakers key with
  | none => objUpsert speakers key { name := speaker, speaches := [mkSpeach rowData] }
  | some sp => objUpsert speakers key { name := sp.name, speaches := sp.speaches ++ [mkSpeach rowData] }

/-- The row loop of `sortAndGroupData` over the data rows of one table. -/
def processTable (speakers : ISpeaker) (rows : List Row) : ISpeaker :=
  rows.foldl processRow speakers

/-- The table loop of `sortAndGroupData`, threading the accumulated
speakers and rebuilding the table list as the in-place `shift()` leaves it.
A zero-row table makes `validateCsvHeader(csvFilesData[i][0])` read a
property of `undefined`: a thrown `TypeError`, modelled as `Except.error`. -/
def sortAndGroupGo (speakers : ISpeaker) : List Table → Except Unit (ISpeaker × List Table)
  | [] => Except.ok (speakers, [])
  | t :: ts =>
    match t with
    | [] => Except.error ()
    | hdr :: rows =>
      if validateCsvHeader hdr then
        match sortAndGroupGo (processTable speakers rows) ts with
        | Except.ok (sp, ts') => Except.ok (sp, rows :: ts')
        | Except.error e => Except.error e
      else
        match sortAndGroupGo speakers ts with
        | Except.ok (sp, ts') => Except.ok (sp, (hdr :: rows) :: ts')
        | Except.error e => Except.error e

/-- `sortAndGroupData` of the source.  The second component of the result
is the state of the caller's table list after the run (every valid table
has lost its header row to `shift()`). -/
def sortAndGroupData (csvFilesData : List Table) : Except Unit (ISpeaker × List Table) :=
  sortAndGroupGo [] csvFilesData

/-- `evaluate` of the source: group, then run the three rankings over the
grouped data and assemble the result object (its `JSON.stringify`
serialization keeps all three keys, since the ranking results are strings
or `null`).  The mutated table list is returned next to the result. -/
def evaluate (csvFilesData : List Table) : Except Unit (EvaluationResult × List Table) :=
  match sortAndGroupData csvFilesData with
  | Except.error e => Except.error e
  | Except.ok (grouped, tables') =>
    Except.ok
      ({ mostSpeaches := getFilteredSpeaker grouped ⟨FilterOption.filterByYear, FilterValue.num 2013⟩
         mostSecurity := getFilteredSpeaker grouped ⟨FilterOption.filterByTopic, FilterValue.str "Internal Security"⟩
         leastWordy := getLeastWordySpeaker grouped },
       tables')

/-- Whether a table's first row (or `undefined` for a zero-row table,
reading past the end) passes header validation. -/
def validFirst (t : Table) : Bool :=
  validateCsvHeader (t.headD [])

/-- The state of the caller's table list after a completed grouping run:
every table whose header validated has lost its first row, the others are
unchanged. -/
def shiftValid (tables : List Table) : List Table :=
  tables.map (fun t => if validFirst t then t.tail else t)

/-- One step of the grouping over tables, ignoring the fault case: process
the data rows of a table with a valid header, skip the table otherwise. -/
def groupStep (sp : ISpeaker) (t : Table) : ISpeaker :=
  if validFirst t then processTable sp t.tail else sp

/-- The grouped speakers produced by a completed (fault-free) run of
`sortAndGroupData`. -/
def groupOk (tables : List Table) : ISpeaker :=
  tables.foldl groupStep []

/-- The property key a data row files its speech under. -/
def rowKey (r : Row) : String :=
  (r.get? ColumnDefinitions.Speaker).getD "undefined"

/-- The speeches contributed to key `k` by a list of data rows, in row
order. -/
def rowsMatching (k : String) (rows : List Row) : List ISpeach :=
  (rows.filter (fun r => decide (rowKey r = k))).map mkSpeach

/-- The speeches contributed to key `k` by a list of tables: data rows of
the tables with a valid header, in table order then row order. -/
def rowsFor (k : String) (tables : List Table) : List ISpeach :=
  (tables.filter validFirst).flatMap (fun t => rowsMatching k t.tail)

/-- Append newly contributed speeches to the (possibly absent) record list
already stored under a key; an absent entry stays absent when nothing is
contributed. -/
def joinRecords (base : Option (List ISpeach)) (l : List ISpeach) : Option (List ISpeach) :=
  match base, l with
  | none, [] => none
  | none, l => some l
  | some s, l => some (s ++ l)

/-- Total number of speech records stored in a speaker map. -/
def totalRecords (m : ISpeaker) : Nat :=
  (m.map (fun p => p.2.speaches.length)).sum

/-- Number of records of a speaker entry matching a filter. -/
def matchCount (fo : IFilterOptions) (sp : SpeakerEntry) : Nat :=
  (sp.speaches.filter (matchesFilter fo)).length

/-- Written from the spec's words: the candidates of the Filtered-most
ranking, one `(name, count)` pair per speaker with at least one matching
record, in enumeration order; speakers with zero matches are excluded
entirely. -/
def specCands (speakers : ISpeaker) (fo : IFilterOptions) : List (String × Nat) :=
  speakers.filterMap
    (fun p =>
      if 0 < matchCount fo p.2 then some (dispName p.2, matchCount fo p.2) else none)

/-- Written from the spec's words: scan the candidates keeping the current
best and replacing it only on a strictly larger count, so the first
encountered candidate wins ties. -/
def firstMaxBy (best : String × Nat) : List (String × Nat) → String × Nat
  | [] => best
  | p :: l => firstMaxBy (if best.2 < p.2 then p else best) l

/-- Written from the spec's words: the Filtered-most ranking picks, among
the speakers with at least one matching record, the first one attaining
the maximum match count, and returns no result when there is no
candidate. -/
def specFilteredMost (speakers : ISpeaker) (fo : IFilterOptions) : Option String :=
  match specCands speakers fo with
  | [] => none
  | c :: cs => some (firstMaxBy c cs).1

/-- Table A of the end-to-end example: a valid header and two data rows. -/
def tableA : Table :=
  [["Speaker", "Topic", "Date", "Words"],
   ["Alice", "Internal Security", "2013-01-01", "100"],
   ["Bob", "Budget", "2013-02-01", "50"]]

/-- Table B of the end-to-end example: an invalid header (missing the
"Words" column) and no data rows. -/
def tableB : Table :=
  [["Speaker", "Topic", "Date"]]

/-- The Grouper output of the end-to-end example. -/
def groupedAB : ISpeaker :=
  [("Alice", ⟨some "Alice", [⟨some "Internal Security", some "2013-01-01", some "100"⟩]⟩),
   ("Bob", ⟨some "Bob", [⟨some "Budget", some "2013-02-01", some "50"⟩]⟩)]

/-- First element of `a :: l` attaining the maximum under `le` when read
through the insertion sort: `a` wins over the best of `l` exactly when the
sort keeps `a` in front of it. -/
def fmLe {α : Type} (le : α → α → Bool) (a : α) : List α → α
  | [] => a
  | b :: l => if le a (fmLe le b l) then a else fmLe le b l

/-- Whether an `Except` computation finished without throwing. -/
def isOkE {ε α : Type} : Except ε α → Bool
  | Except.ok _ => true
  | Except.error _ => false

/-- Table C: a second valid table mentioning the speaker "Alice" again. -/
def tableC : Table :=
  [["Speaker", "Topic", "Date", "Words"],
   ["Alice", "Budget", "2014-01-01", "7"]]

/-- A record of 100 words. -/
def recA100 : ISpeach := ⟨some "t", some "2013-01-01", some "100"⟩

/-- A record whose `words` field is the empty string (`parseInt` yields
`NaN`). -/
def recAbad : ISpeach := ⟨some "t", some "2013-01-01", some ""⟩

/-- A record of 50 words. -/
def recB50 : ISpeach := ⟨some "t", some "2013-01-01", some "50"⟩

/-- Speaker "A" with a 100-word record and a malformed record. -/
def spMalA : String × SpeakerEntry := ("A", ⟨some "A", [recA100, recAbad]⟩)

/-- Speaker "A" with the malformed record removed. -/
def spCleanA : String × SpeakerEntry := ("A", ⟨some "A", [recA100]⟩)

/-- Speaker "B" with a single 50-word record. -/
def spB : String × SpeakerEntry := ("B", ⟨some "B", [recB50]⟩)

/-- A record on topic "x". -/
def recX : ISpeach := ⟨some "x", some "2013-01-01", some "1"⟩

/-- A record on topic "y". -/
def recY : ISpeach := ⟨some "y", some "2013-01-01", some "1"⟩

/-- A speaker table where, filtering by topic "x", speaker "A" has one
match and speakers "B" and "C" tie at two matches each. -/
def filterTieTable : ISpeaker :=
  [("A", ⟨some "A", [recX, recY, recY]⟩),
   ("B", ⟨some "B", [recX, recX]⟩),
   ("C", ⟨some "C", [recX, recX, recY]⟩)]

/-- The by-topic filter options for topic "x". -/
def topicX : IFilterOptions := ⟨FilterOption.filterByTopic, FilterValue.str "x"⟩

theorem objGet_nil {β : Type} (k : String) : objGet ([] : List (String × β)) k = none := rfl

theorem objGet_cons {β : Type} (p : String × β) (m : List (String × β)) (k : String) :
    objGet (p :: m) k = if p.1 = k then some p.2 else objGet m k := by
  by_cases h : p.1 = k <;> simp [objGet, List.find?, h]

theorem objGet_objUpsert {β : Type} (m : List (String × β)) (k1 : String) (v : β) (k : String) :
    objGet (objUpsert m k1 v) k = if k1 = k then some v else objGet m k := by
  induction m with
  | nil =>
    by_cases h : k1 = k <;> simp [objUpsert, objGet_cons, objGet_nil, h]
  | cons p m ih =>
    by_cases hp : p.1 = k1
    · by_cases hk : k1 = k <;>
        simp [objUpsert, hp, objGet_cons, hk, hp ▸ hk]
    · have : objUpsert (p :: m) k1 v = p :: objUpsert m k1 v := by
        simp [objUpsert, hp]
      rw [this, objGet_cons, objGet_cons, ih]
      by_cases hk : k1 = k
      · have : ¬ p.1 = k := fun hpk => hp (hpk.trans hk.symm)
        simp [hk, this]
      · simp [hk]

theorem objUpsert_fresh {β : Type} (m : List (String × β)) (k : String) (v : β)
    (h : ∀ q ∈ m, q.1 ≠ k) : objUpsert m k v = m ++ [(k, v)] := by
  induction m with
  | nil => simp [objUpsert]
  | cons p m ih =>
    have hp : p.1 ≠ k := h p (List.mem_cons_self p m)
    simp [objUpsert, hp]
    exact ih (fun q hq => h q (List.mem_cons_of_mem p hq))

theorem joinRecords_nil (b : Option (List ISpeach)) : joinRecords b [] = b := by
  cases b <;> simp [joinRecords]

theorem joinRecords_append (b : Option (List ISpeach)) (l1 l2 : List ISpeach) :
    joinRecords (joinRecords b l1) l2 = joinRecords b (l1 ++ l2) := by
  cases b with
  | none =>
    cases l1 with
    | nil => simp [joinRecords_nil, joinRecords]
    | cons x l1 =>
      cases l2 <;> simp [joinRecords]
  | some s =>
    cases l1 <;> cases l2 <;> simp [joinRecords]

theorem rowsMatching_nil (k : String) : rowsMatching k [] = [] := rfl

theorem rowsMatching_cons (k : String) (r : Row) (rows : List Row) :
    rowsMatching k (r :: rows) =
      (if rowKey r = k then [mkSpeach r] else []) ++ rowsMatching k rows := by
  by_cases h : rowKey r = k <;> simp [rowsMatching, List.filter, h]

theorem processRow_def (m : ISpeaker) (r : Row) :
    processRow m r =
      match objGet m (rowKey r) with
      | none => objUpsert m (rowKey r)
          { name := r.get? ColumnDefinitions.Speaker, speaches := [mkSpeach r] }
      | some sp => objUpsert m (rowKey r)
          { name := sp.name, speaches := sp.speaches ++ [mkSpeach r] } := rfl

theorem objGet_processRow (m : ISpeaker) (r : Row) (k : String) :
    (objGet (processRow m r) k).map SpeakerEntry.speaches =
      joinRecords ((objGet m k).map SpeakerEntry.speaches)
        (if rowKey r = k then [mkSpeach r] else []) := by
  rw [processRow_def]
  cases hm : objGet m (rowKey r) with
  | none =>
    rw [objGet_objUpsert]
    by_cases hk : rowKey r = k
    · subst hk
      simp [hm, joinRecords]
    · simp [hk, joinRecords_nil]
  | some sp =>
    rw [objGet_objUpsert]
    by_cases hk : rowKey r = k
    · subst hk
      simp [hm, joinRecords]
    · simp [hk, joinRecords_nil]

theorem objGet_processTable (rows : List Row) :
    ∀ (m : ISpeaker) (k : String),
      (objGet (processTable m rows) k).map SpeakerEntry.speaches =
        joinRecords ((objGet m k).map SpeakerEntry.speaches) (rowsMatching k rows) := by
  induction rows with
  | nil =>
    intro m k
    simp [processTable, rowsMatching_nil, joinRecords_nil]
  | cons r rows ih =>
    intro m k
    have hstep : processTable m (r :: rows) = processTable (processRow m r) rows := rfl
    rw [hstep, ih, objGet_processRow, joinRecords_append, ← rowsMatching_cons]

theorem rowsFor_nil (k : String) : rowsFor k [] = [] := rfl

theorem rowsFor_cons (k : String) (t : Table) (ts : List Table) :
    rowsFor k (t :: ts) =
      (if validFirst t then rowsMatching k t.tail else []) ++ rowsFor k ts := by
  by_cases h : validFirst t <;> simp [rowsFor, List.filter_cons, h]

theorem objGet_groupFold (tables : List Table) :
    ∀ (m : ISpeaker) (k : String),
      (objGet (tables.foldl groupStep m) k).map SpeakerEntry.speaches =
        joinRecords ((objGet m k).map SpeakerEntry.speaches) (rowsFor k tables) := by
  induction tables with
  | nil =>
    intro m k
    simp [rowsFor_nil, joinRecords_nil]
  | cons t ts ih =>
    intro m k
    have hstep : (t :: ts).foldl groupStep m = ts.foldl groupStep (groupStep m t) := rfl
    rw [hstep, ih, rowsFor_cons, ← joinRecords_append]
    by_cases h : validFirst t
    · simp only [groupStep, if_pos h, objGet_processTable]
    · simp only [groupStep, if_neg h, joinRecords_nil]

theorem objGet_groupOk (tables : List Table) (k : String) :
    (objGet (groupOk tables) k).map SpeakerEntry.speaches =
      (if rowsFor k tables = [] then none else some (rowsFor k tables)) := by
  have h := objGet_groupFold tables [] k
  rw [objGet_nil] at h
  rw [groupOk, h]
  cases hl : rowsFor k tables <;> simp [joinRecords, hl]

theorem validFirst_cons (hdr : Row) (rows : List Row) :
    validFirst (hdr :: rows) = validateCsvHeader hdr := rfl

theorem sortAndGroupGo_ok (tables : List Table) :
    ∀ (sp : ISpeaker), (∀ t ∈ tables, t ≠ []) →
      sortAndGroupGo sp tables = Except.ok (tables.foldl groupStep sp, shiftValid tables) := by
  induction tables with
  | nil =>
    intro sp _
    simp [sortAndGroupGo, shiftValid]
  | cons t ts ih =>
    intro sp h
    have ht : t ≠ [] := h t (List.mem_cons_self t ts)
    have hts : ∀ u ∈ ts, u ≠ [] := fun u hu => h u (List.mem_cons_of_mem t hu)
    cases t with
    | nil => exact absurd rfl ht
    | cons hdr rows =>
      by_cases hv : validateCsvHeader hdr
      · simp only [sortAndGroupGo, hv, if_true, ih (processTable sp rows) hts]
        simp [shiftValid, groupStep, validFirst_cons, hv]
      · simp only [sortAndGroupGo, hv, if_false, ih sp hts]
        simp [shiftValid, groupStep, validFirst_cons, hv]

theorem sortAndGroupData_ok (tables : List Table) (h : ∀ t ∈ tables, t ≠ []) :
    sortAndGroupData tables = Except.ok (groupOk tables, shiftValid tables) :=
  sortAndGroupGo_ok tables [] h

theorem groupFold_filter (tables : List Table) :
    ∀ (m : ISpeaker), tables.foldl groupStep m = (tables.filter validFirst).foldl groupStep m := by
  induction tables with
  | nil => intro m; rfl
  | cons t ts ih =>
    intro m
    by_cases h : validFirst t
    · simp [List.filter_cons, h, List.foldl_cons, ih]
    · simp only [List.filter_cons, h, List.foldl_cons, Bool.false_eq_true, if_false]
      simp only [groupStep, if_neg h]
      exact ih m

theorem totalRecords_nil : totalRecords [] = 0 := rfl

theorem totalRecords_cons (p : String × SpeakerEntry) (m : ISpeaker) :
    totalRecords (p :: m) = p.2.speaches.length + totalRecords m := by
  simp [totalRecords]

theorem totalRecords_objUpsert_new (m : ISpeaker) (k : String) (v : SpeakerEntry)
    (hm : objGet m k = none) :
    totalRecords (objUpsert m k v) = totalRecords m + v.speaches.length := by
  induction m with
  | nil => simp [objUpsert, totalRecords_cons, totalRecords_nil]
  | cons p m ih =>
    rw [objGet_cons] at hm
    by_cases hp : p.1 = k
    · simp [hp] at hm
    · simp only [objUpsert, hp, if_false, totalRecords_cons]
      rw [ih (by simpa [hp] using hm)]
      omega

theorem totalRecords_objUpsert_add (m : ISpeaker) (k : String) (sp : SpeakerEntry)
    (v : SpeakerEntry) (hm : objGet m k = some sp)
    (hv : v.speaches.length = sp.speaches.length + 1) :
    totalRecords (objUpsert m k v) = totalRecords m + 1 := by
  induction m with
  | nil => simp [objGet_nil] at hm
  | cons p m ih =>
    rw [objGet_cons] at hm
    by_cases hp : p.1 = k
    · have hsp : p.2 = sp := by simpa [hp] using hm
      simp only [objUpsert, hp, if_true, totalRecords_cons]
      rw [hv, hsp]
      omega
    · simp only [objUpsert, hp, if_false, totalRecords_cons]
      rw [ih (by simpa [hp] using hm)]
      omega

theorem totalRecords_processRow (m : ISpeaker) (r : Row) :
    totalRecords (processRow m r) = totalRecords m + 1 := by
  rw [processRow_def]
  cases hm : objGet m (rowKey r) with
  | none =>
    rw [totalRecords_objUpsert_new m (rowKey r) _ hm]
    simp
  | some sp =>
    exact totalRecords_objUpsert_add m (rowKey r) sp _ hm (by simp)

theorem totalRecords_processTable (rows : List Row) :
    ∀ (m : ISpeaker), totalRecords (processTable m rows) = totalRecords m + rows.length := by
  induction rows with
  | nil => intro m; rfl
  | cons r rows ih =>
    intro m
    have hstep : processTable m (r :: rows) = processTable (processRow m r) rows := rfl
    rw [hstep, ih, totalRecords_processRow]
    simp [List.length_cons]
    omega

theorem totalRecords_groupFold (tables : List Table) :
    ∀ (m : ISpeaker),
      totalRecords (tables.foldl groupStep m) =
        totalRecords m + ((tables.filter validFirst).map (fun t => t.tail.length)).sum := by
  induction tables with
  | nil => intro m; simp
  | cons t ts ih =>
    intro m
    have hstep : (t :: ts).foldl groupStep m = ts.foldl groupStep (groupStep m t) := rfl
    rw [hstep, ih]
    by_cases h : validFirst t
    · simp only [groupStep, if_pos h, List.filter_cons, h, if_true, List.map_cons, List.sum_cons,
        totalRecords_processTable]
      omega
    · simp only [groupStep, if_neg h, List.filter_cons, h, Bool.false_eq_true, if_false]

theorem sortInsert_length {α : Type} (le : α → α → Bool) (a : α) (l : List α) :
    (sortInsert le a l).length = l.length + 1 := by
  induction l with
  | nil => rfl
  | cons b l ih =>
    by_cases h : le a b <;> simp [sortInsert, h, ih]

theorem jsSort_length {α : Type} (le : α → α → Bool) (l : List α) :
    (jsSort le l).length = l.length := by
  induction l with
  | nil => rfl
  | cons a l ih => simp [jsSort, sortInsert_length, ih]

theorem sortInsert_head {α : Type} (le : α → α → Bool) (a b : α) (l : List α) :
    (sortInsert le a (b :: l)).head? = some (if le a b then a else b) := by
  by_cases h : le a b <;> simp [sortInsert, h]

theorem jsSort_cons_head {α : Type} (le : α → α → Bool) (l : List α) :
    ∀ (a : α), (jsSort le (a :: l)).head? = some (fmLe le a l) := by
  induction l with
  | nil =>
    intro a
    simp [jsSort, sortInsert, fmLe]
  | cons b l ih =>
    intro a
    have h1 : jsSort le (a :: b :: l) = sortInsert le a (jsSort le (b :: l)) := rfl
    cases hcase : jsSort le (b :: l) with
    | nil =>
      have := jsSort_length le (b :: l)
      rw [hcase] at this
      simp at this
    | cons c rest =>
      have hc : c = fmLe le b l := by
        have := ih b
        rw [hcase] at this
        simpa using this
      rw [h1, hcase, sortInsert_head, hc]
      simp [fmLe]

theorem fm_le_snd (a : String × Nat) (l : List (String × Nat)) :
    a.2 ≤ (fmLe descKeep a l).2 := by
  induction l generalizing a with
  | nil => simp [fmLe]
  | cons b l ih =>
    by_cases h : (fmLe descKeep b l).2 ≤ a.2
    · simp [fmLe, descKeep, h]
    · simp only [fmLe, descKeep, decide_eq_true_eq, h, if_false]
      omega

theorem fm_max (l : List (String × Nat)) :
    ∀ (a x : String × Nat), x ∈ l → x.2 ≤ (fmLe descKeep a l).2 := by
  induction l with
  | nil => intro a x hx; simp at hx
  | cons b l ih =>
    intro a x hx
    by_cases h : (fmLe descKeep b l).2 ≤ a.2
    · simp only [fmLe, descKeep, decide_eq_true_eq, h, if_true]
      rcases List.mem_cons.mp hx with hb | hl
      · subst hb
        exact le_trans (fm_le_snd x l) h
      · exact le_trans (ih b x hl) h
    · simp only [fmLe, descKeep, decide_eq_true_eq, h, if_false]
      rcases List.mem_cons.mp hx with hb | hl
      · subst hb
        exact fm_le_snd x l
      · exact ih b x hl

theorem fm_mem (l : List (String × Nat)) :
    ∀ (a : String × Nat), fmLe descKeep a l = a ∨ fmLe descKeep a l ∈ l := by
  induction l with
  | nil => intro a; left; rfl
  | cons b l ih =>
    intro a
    by_cases h : (fmLe descKeep b l).2 ≤ a.2
    · left
      simp [fmLe, descKeep, h]
    · right
      simp only [fmLe, descKeep, decide_eq_true_eq, h, if_false]
      rcases ih b with hb | hl
      · rw [hb]; exact List.mem_cons_self b l
      · exact List.mem_cons_of_mem b hl

theorem fm_eq_self (l : List (String × Nat)) :
    ∀ (a : String × Nat), (∀ x ∈ l, x.2 ≤ a.2) → fmLe descKeep a l = a := by
  induction l with
  | nil => intro a _; rfl
  | cons b l _ =>
    intro a h
    have hb : (fmLe descKeep b l).2 ≤ a.2 := by
      rcases fm_mem l b with he | hm
      · rw [he]; exact h b (List.mem_cons_self b l)
      · exact h _ (List.mem_cons_of_mem b hm)
    simp [fmLe, descKeep, hb]

theorem fm_seed_switch (l : List (String × Nat)) (a b : String × Nat)
    (hab : a.2 ≤ b.2) (h : b.2 < (fmLe descKeep a l).2) :
    fmLe descKeep b l = fmLe descKeep a l := by
  cases l with
  | nil =>
    simp only [fmLe] at h
    omega
  | cons q l =>
    by_cases hq : (fmLe descKeep q l).2 ≤ a.2
    · simp only [fmLe, descKeep, decide_eq_true_eq, hq, if_true] at h
      omega
    · have hgoal : ¬ (fmLe descKeep q l).2 ≤ b.2 := by
        simp only [fmLe, descKeep, decide_eq_true_eq, hq, if_false] at h
        omega
      simp [fmLe, descKeep, hq, hgoal]

theorem firstMaxBy_eq_fm (l : List (String × Nat)) :
    ∀ (c : String × Nat), firstMaxBy c l = fmLe descKeep c l := by
  induction l with
  | nil => intro c; rfl
  | cons p l ih =>
    intro c
    have hstep : firstMaxBy c (p :: l) = firstMaxBy (if c.2 < p.2 then p else c) l := rfl
    rw [hstep, ih]
    by_cases hcp : c.2 < p.2
    · have hne : ¬ (fmLe descKeep p l).2 ≤ c.2 := by
        have := fm_le_snd p l
        omega
      simp [fmLe, descKeep, hcp, hne]
    · by_cases hm : (fmLe descKeep p l).2 ≤ c.2
      · have hc : fmLe descKeep c l = c :=
          fm_eq_self l c (fun x hx => le_trans (fm_max l p x hx) hm)
      
        simp [fmLe, descKeep, hcp, hm, hc]
      · have hswitch : fmLe descKeep c l = fmLe descKeep p l :=
          fm_seed_switch l p c (by omega) (by omega)
        simp [fmLe, descKeep, hcp, hm, hswitch]

theorem specCands_cons (p : String × SpeakerEntry) (ps : ISpeaker) (fo : IFilterOptions) :
    specCands (p :: ps) fo =
      (if 0 < matchCount fo p.2 then [(dispName p.2, matchCount fo p.2)] else []) ++
        specCands ps fo := by
  by_cases h : 0 < matchCount fo p.2 <;> simp [specCands, List.filterMap_cons, h]

theorem filterStep_def (fo : IFilterOptions) (m : List (String × Nat)) (p : String × SpeakerEntry) :
    filterStep fo m p =
      if 0 < matchCount fo p.2 then objUpsert m (dispName p.2) (matchCount fo p.2) else m := rfl

theorem filterFold_eq (speakers : ISpeaker) (fo : IFilterOptions) :
    ∀ (acc : List (String × Nat)),
      (∀ q ∈ acc, ∀ p ∈ speakers, q.1 ≠ dispName p.2) →
      ((speakers.map fun p => dispName p.2).Nodup) →
      speakers.foldl (filterStep fo) acc = acc ++ specCands speakers fo := by
  induction speakers with
  | nil =>
    intro acc _ _
    simp [specCands]
  | cons p ps ih =>
    intro acc h1 h2
    have hfold : (p :: ps).foldl (filterStep fo) acc = ps.foldl (filterStep fo) (filterStep fo acc p) := rfl
    rw [List.map_cons] at h2
    have hn := List.nodup_cons.mp h2
    by_cases hc : 0 < matchCount fo p.2
    · have hfresh : ∀ q ∈ acc, q.1 ≠ dispName p.2 :=
        fun q hq => h1 q hq p (List.mem_cons_self p ps)
      have hstep : filterStep fo acc p = acc ++ [(dispName p.2, matchCount fo p.2)] := by
        rw [filterStep_def, if_pos hc, objUpsert_fresh acc _ _ hfresh]
      have h1' : ∀ q ∈ acc ++ [(dispName p.2, matchCount fo p.2)], ∀ p' ∈ ps, q.1 ≠ dispName p'.2 := by
        intro q hq p' hp'
        rcases List.mem_append.mp hq with hqa | hqx
        · exact h1 q hqa p' (List.mem_cons_of_mem p hp')
        · have hqe : q = (dispName p.2, matchCount fo p.2) := by simpa using hqx
          subst hqe
          intro hcontra
          simp only [] at hcontra
          exact hn.1 (by
            rw [hcontra]
            exact List.mem_map.mpr ⟨p', hp', rfl⟩)
      rw [hfold, hstep, ih _ h1' hn.2, specCands_cons, if_pos hc, List.append_assoc]
    · have hstep : filterStep fo acc p = acc := by
        rw [filterStep_def, if_neg hc]
      have h1' : ∀ q ∈ acc, ∀ p' ∈ ps, q.1 ≠ dispName p'.2 :=
        fun q hq p' hp' => h1 q hq p' (List.mem_cons_of_mem p hp')
      rw [hfold, hstep, ih _ h1' hn.2, specCands_cons, if_neg hc]
      rfl

theorem filterForSpeakers_eq_specCands (speakers : ISpeaker) (fo : IFilterOptions)
    (h : (speakers.map fun p => dispName p.2).Nodup) :
    filterForSpeakers speakers fo = specCands speakers fo := by
  have := filterFold_eq speakers fo [] (by simp) h
  simpa [filterForSpeakers] using this

theorem groupFold_invalid (tables : List Table) (h : ∀ t ∈ tables, validFirst t = false) :
    ∀ (m : ISpeaker), tables.foldl groupStep m = m := by
  induction tables with
  | nil => intro m; rfl
  | cons t ts ih =>
    intro m
    have ht : validFirst t = false := h t (List.mem_cons_self t ts)
    have hstep : (t :: ts).foldl groupStep m = ts.foldl groupStep (groupStep m t) := rfl
    rw [hstep]
    have : groupStep m t = m := by simp [groupStep, ht]
    rw [this]
    exact ih (fun u hu => h u (List.mem_cons_of_mem t hu)) m

theorem shiftValid_invalid (tables : List Table) (h : ∀ t ∈ tables, validFirst t = false) :
    shiftValid tables = tables := by
  induction tables with
  | nil => rfl
  | cons t ts ih =>
    have ht : validFirst t = false := h t (List.mem_cons_self t ts)
    simp only [shiftValid, List.map_cons, ht, Bool.false_eq_true, if_false]
    rw [show List.map (fun t => if validFirst t then t.tail else t) ts = shiftValid ts from rfl]
    rw [ih (fun u hu => h u (List.mem_cons_of_mem t hu))]

theorem jsAdd_none_right (a : Option Int) : jsAdd a none = none := by
  cases a <;> rfl

theorem foldl_addWords_none (l : List ISpeach) : l.foldl addWords none = none := by
  induction l with
  | nil => rfl
  | cons s l ih =>
    have : addWords none s = none := rfl
    simp [List.foldl_cons, this, ih]

theorem foldl_addWords_malformed (l : List ISpeach) :
    ∀ (acc : Option Int) (r : ISpeach), r ∈ l → jsParseInt r.words = none →
      l.foldl addWords acc = none := by
  induction l with
  | nil => intro acc r hr; simp at hr
  | cons s l ih =>
    intro acc r hr hw
    rcases List.mem_cons.mp hr with he | hl
    · subst he
      have hs : addWords acc r = none := by
        simp [addWords, hw, jsAdd_none_right]
      simp [List.foldl_cons, hs, foldl_addWords_none]
    · simp only [List.foldl_cons]
      exact ih (addWords acc s) r hl hw

/-- C6 (confirmed): `validateCsvHeader` returns true if and only if the
four fixed zero-based positions 0..3 hold, case-sensitively, the literal
labels "Speaker", "Topic", "Date", "Words" (equivalently: the row starts
with exactly those four labels); any mismatch, including a row too short
to have all four positions, yields false.  The function is pure by
construction. -/
theorem validateCsvHeader_iff_labels (header : Row) :
    validateCsvHeader header = true ↔
      header.take 4 = ["Speaker", "Topic", "Date", "Words"] := by
  constructor
  · intro hv
    cases header with
    | nil =>
      simp [validateCsvHeader, ColumnDefinitions.Speaker, ColumnDefinitions.Topic,
        ColumnDefinitions.Date, ColumnDefinitions.Words, List.get?] at hv
    | cons a t =>
      cases t with
      | nil =>
        simp [validateCsvHeader, ColumnDefinitions.Speaker, ColumnDefinitions.Topic,
          ColumnDefinitions.Date, ColumnDefinitions.Words, List.get?] at hv
      | cons b t =>
        cases t with
        | nil =>
          simp [validateCsvHeader, ColumnDefinitions.Speaker, ColumnDefinitions.Topic,
            ColumnDefinitions.Date, ColumnDefinitions.Words, List.get?] at hv
        | cons c t =>
          cases t with
          | nil =>
            simp [validateCsvHeader, ColumnDefinitions.Speaker, ColumnDefinitions.Topic,
              ColumnDefinitions.Date, ColumnDefinitions.Words, List.get?] at hv
          | cons d t =>
            simp only [validateCsvHeader, ColumnDefinitions.Speaker, ColumnDefinitions.Topic,
              ColumnDefinitions.Date, ColumnDefinitions.Words, List.get?, Bool.and_eq_true,
              decide_eq_true_eq, Option.some_inj] at hv
            obtain ⟨⟨⟨h1, h2⟩, h3⟩, h4⟩ := hv
            subst h1; subst h2; subst h3; subst h4
            simp [List.take]
  · intro ht
    have h4 : header = ["Speaker", "Topic", "Date", "Words"] ++ header.drop 4 := by
      conv_lhs => rw [← List.take_append_drop 4 header]
      rw [ht]
    rw [h4]
    simp [validateCsvHeader, ColumnDefinitions.Speaker, ColumnDefinitions.Topic,
      ColumnDefinitions.Date, ColumnDefinitions.Words, List.get?]

/-- C8 (confirmed): both rankings applied to an empty `ISpeaker` table
yield `none` ("no result") rather than an error: the Least-wordy ranking
returns `none`, and the Filtered-most ranking returns `none` for every
filter. -/
theorem rankings_empty_no_result :
    getLeastWordySpeaker ([] : ISpeaker) = none ∧
      ∀ (fo : IFilterOptions), getFilteredSpeaker ([] : ISpeaker) fo = none :=
  ⟨rfl, fun _ => rfl⟩

/-- C9 (confirmed): on Table A (valid header, rows Alice/100 words and
Bob/50 words) together with Table B (invalid header), the Grouper yields
exactly one record for Alice and one for Bob, Least-wordy selects "Bob",
Filtered-most by year 2013 selects "Alice" (both match once; the tie goes
to the first encountered), Filtered-most by topic "Internal Security"
selects "Alice", and `evaluate` assembles exactly that result. -/
theorem evaluate_end_example :
    sortAndGroupData [tableA, tableB] = Except.ok (groupedAB, [tableA.tail, tableB]) ∧
      getLeastWordySpeaker groupedAB = some "Bob" ∧
      getFilteredSpeaker groupedAB ⟨FilterOption.filterByYear, FilterValue.num 2013⟩ = some "Alice" ∧
      getFilteredSpeaker groupedAB ⟨FilterOption.filterByTopic, FilterValue.str "Internal Security"⟩ =
        some "Alice" ∧
      evaluate [tableA, tableB] =
        Except.ok (⟨some "Alice", some "Alice", some "Bob"⟩, [tableA.tail, tableB]) :=
  ⟨rfl, rfl, rfl, rfl, rfl⟩

/-- C10 (confirmed): a completed grouping run hands back the caller's
table list with the first row removed in place from every table whose
header validated, and the other tables unchanged; the input list is not
preserved. -/
theorem grouper_mutates_input (tables : List Table) (h : ∀ t ∈ tables, t ≠ []) :
    sortAndGroupData tables =
      Except.ok (groupOk tables,
        tables.map (fun t => if validateCsvHeader (t.headD []) then t.tail else t)) :=
  sortAndGroupData_ok tables h

/-- Witness for C10 at a concrete input: one valid and one invalid table. -/
theorem grouper_mutates_input_witness :
    (∀ t ∈ [tableA, tableB], t ≠ []) ∧
      sortAndGroupData [tableA, tableB] =
        Except.ok (groupOk [tableA, tableB],
          [tableA, tableB].map (fun t => if validateCsvHeader (t.headD []) then t.tail else t)) :=
  ⟨by decide, grouper_mutates_input [tableA, tableB] (by decide)⟩

/-- C3 counterexample: a list containing a table with zero rows makes the
Grouper fault (the header validation reads a property of `undefined`),
instead of returning a SpeakerTable. -/
theorem grouper_zero_row_table_faults :
    sortAndGroupData [([] : Table)] = Except.error () := rfl

/-- C3 (amended): for every list of tables that each have a first row, the
Grouper completes without faulting, and a table whose first row fails
header validation contributes nothing to the output; a table with zero
rows, however, faults. -/
theorem grouper_total_on_nonempty (tables : List Table) (h : ∀ t ∈ tables, t ≠ []) :
    isOkE (sortAndGroupData tables) = true ∧
      groupOk tables = groupOk (tables.filter validFirst) := by
  constructor
  · rw [sortAndGroupData_ok tables h]
    rfl
  · exact groupFold_filter tables []

/-- Witness for the amended C3 at a concrete input. -/
theorem grouper_total_on_nonempty_witness :
    (∀ t ∈ [tableB, tableC], t ≠ []) ∧
      (isOkE (sortAndGroupData [tableB, tableC]) = true ∧
        groupOk [tableB, tableC] = groupOk ([tableB, tableC].filter validFirst)) :=
  ⟨by decide, grouper_total_on_nonempty [tableB, tableC] (by decide)⟩

/-- C4 counterexample: even when every non-empty table is well behaved,
one zero-row table in the list makes the Grouper fault, so the claimed
behaviour does not hold for every list of tables. -/
theorem grouper_fault_despite_valid_table :
    sortAndGroupData [tableC, ([] : Table)] = Except.error () := rfl

/-- C4 (amended): for every list of tables that each have a first row, the
Grouper skips every table whose first row fails header validation and, for
every key, the entry stored under that key holds exactly the records of
the data rows with that speaker field, across all valid tables, in input
order (absent when there are none); the input list is handed back with
valid tables shifted. -/
theorem grouper_merges_by_speaker (tables : List Table) (k : String)
    (h : ∀ t ∈ tables, t ≠ []) :
    sortAndGroupData tables = Except.ok (groupOk tables, shiftValid tables) ∧
      (objGet (groupOk tables) k).map SpeakerEntry.speaches =
        (if rowsFor k tables = [] then none else some (rowsFor k tables)) :=
  ⟨sortAndGroupData_ok tables h, objGet_groupOk tables k⟩

/-- Witness for the amended C4: two valid tables both mentioning "Alice"
merge into a single entry carrying both records in input order. -/
theorem grouper_merges_by_speaker_witness :
    (∀ t ∈ [tableA, tableC], t ≠ []) ∧
      (sortAndGroupData [tableA, tableC] =
          Except.ok (groupOk [tableA, tableC], shiftValid [tableA, tableC]) ∧
        (objGet (groupOk [tableA, tableC]) "Alice").map SpeakerEntry.speaches =
          (if rowsFor "Alice" [tableA, tableC] = [] then none
           else some (rowsFor "Alice" [tableA, tableC]))) ∧
      rowsFor "Alice" [tableA, tableC] =
        [⟨some "Internal Security", some "2013-01-01", some "100"⟩,
         ⟨some "Budget", some "2014-01-01", some "7"⟩] :=
  ⟨by decide, grouper_merges_by_speaker [tableA, tableC] "Alice" (by decide), by decide⟩

theorem objGet_none_not_mem {β : Type} (m : List (String × β)) (k : String)
    (h : objGet m k = none) : ∀ p ∈ m, p.1 ≠ k := by
  induction m with
  | nil => intro p hp; simp at hp
  | cons q m ih =>
    rw [objGet_cons] at h
    by_cases hq : q.1 = k
    · simp [hq] at h
    · intro p hp
      rcases List.mem_cons.mp hp with he | hm
      · subst he; exact hq
      · exact ih (by simpa [hq] using h) p hm

theorem keys_objUpsert_present {β : Type} (m : List (String × β)) (k : String) (v : β)
    (w : β) (h : objGet m k = some w) :
    (objUpsert m k v).map Prod.fst = m.map Prod.fst := by
  induction m with
  | nil => simp [objGet_nil] at h
  | cons p m ih =>
    rw [objGet_cons] at h
    by_cases hp : p.1 = k
    · simp [objUpsert, hp]
    · simp only [objUpsert, hp, if_false, List.map_cons]
      rw [ih (by simpa [hp] using h)]

theorem keys_processRow_nodup (m : ISpeaker) (r : Row)
    (h : (m.map Prod.fst).Nodup) : ((processRow m r).map Prod.fst).Nodup := by
  rw [processRow_def]
  cases hm : objGet m (rowKey r) with
  | none =>
    have hfresh : ∀ p ∈ m, p.1 ≠ rowKey r := objGet_none_not_mem m (rowKey r) hm
    rw [objUpsert_fresh m (rowKey r) _ hfresh, List.map_append, List.nodup_append]
    refine ⟨h, by simp, ?_⟩
    intro a ha hb
    have hb' : a = rowKey r := by simpa using hb
    rcases List.mem_map.mp ha with ⟨p, hp, hpa⟩
    exact hfresh p hp (hpa.trans hb')
  | some sp =>
    rw [keys_objUpsert_present m (rowKey r) _ sp hm]
    exact h

theorem keys_processTable_nodup (rows : List Row) :
    ∀ (m : ISpeaker), (m.map Prod.fst).Nodup → ((processTable m rows).map Prod.fst).Nodup := by
  induction rows with
  | nil => intro m h; exact h
  | cons r rows ih =>
    intro m h
    exact ih (processRow m r) (keys_processRow_nodup m r h)

theorem keys_groupFold_nodup (tables : List Table) :
    ∀ (m : ISpeaker), (m.map Prod.fst).Nodup →
      ((tables.foldl groupStep m).map Prod.fst).Nodup := by
  induction tables with
  | nil => intro m h; exact h
  | cons t ts ih =>
    intro m h
    have hstep : (t :: ts).foldl groupStep m = ts.foldl groupStep (groupStep m t) := rfl
    rw [hstep]
    apply ih
    by_cases hv : validFirst t
    · simp only [groupStep, if_pos hv]
      exact keys_processTable_nodup t.tail m h
    · simp only [groupStep, if_neg hv]
      exact h

theorem groupOk_keys_nodup (tables : List Table) : ((groupOk tables).map Prod.fst).Nodup :=
  keys_groupFold_nodup tables [] (by simp)

/-- C7 (confirmed, reading "well-formed" as: every table has a first row):
the Grouper completes; its entries have pairwise distinct keys; for every
key, the entry stored under it holds exactly the records of the data rows
whose speaker field is that key, across the tables with a valid header, in
input order (absent when there are none) — so every data row is placed in
exactly one speaker entry, keyed by the row's speaker field; and the total
number of records over all speaker entries equals the sum over the tables
with a valid header of their number of data rows (rows after the
header). -/
theorem grouper_preserves_row_count (tables : List Table) (h : ∀ t ∈ tables, t ≠ []) :
    sortAndGroupData tables = Except.ok (groupOk tables, shiftValid tables) ∧
      ((groupOk tables).map Prod.fst).Nodup ∧
      (∀ k, (objGet (groupOk tables) k).map SpeakerEntry.speaches =
        (if rowsFor k tables = [] then none else some (rowsFor k tables))) ∧
      totalRecords (groupOk tables) =
        ((tables.filter validFirst).map (fun t => t.length - 1)).sum := by
  refine ⟨sortAndGroupData_ok tables h, groupOk_keys_nodup tables,
    fun k => objGet_groupOk tables k, ?_⟩
  have hfold := totalRecords_groupFold tables ([] : ISpeaker)
  rw [groupOk, hfold, totalRecords_nil]
  have hmap : ((tables.filter validFirst).map fun t => t.tail.length) =
      ((tables.filter validFirst).map fun t => t.length - 1) := by
    apply List.map_congr_left
    intro t _
    cases t <;> simp
  rw [hmap]
  omega

/-- Witness for C7: three rows across two valid tables and one invalid
table give three records in the grouped output, with distinct keys and
"Bob"'s entry holding exactly his row. -/
theorem grouper_preserves_row_count_witness :
    (∀ t ∈ [tableA, tableB, tableC], t ≠ []) ∧
      (sortAndGroupData [tableA, tableB, tableC] =
          Except.ok (groupOk [tableA, tableB, tableC], shiftValid [tableA, tableB, tableC]) ∧
        ((groupOk [tableA, tableB, tableC]).map Prod.fst).Nodup ∧
        (objGet (groupOk [tableA, tableB, tableC]) "Bob").map SpeakerEntry.speaches =
          (if rowsFor "Bob" [tableA, tableB, tableC] = [] then none
           else some (rowsFor "Bob" [tableA, tableB, tableC])) ∧
        totalRecords (groupOk [tableA, tableB, tableC]) =
          (([tableA, tableB, tableC].filter validFirst).map (fun t => t.length - 1)).sum) ∧
      totalRecords (groupOk [tableA, tableB, tableC]) = 3 :=
  ⟨by decide,
    ⟨(grouper_preserves_row_count [tableA, tableB, tableC] (by decide)).1,
     (grouper_preserves_row_count [tableA, tableB, tableC] (by decide)).2.1,
     (grouper_preserves_row_count [tableA, tableB, tableC] (by decide)).2.2.1 "Bob",
     (grouper_preserves_row_count [tableA, tableB, tableC] (by decide)).2.2.2⟩,
    by decide⟩

/-- C5 (confirmed, under the data-model invariant that speaker names are
unique keys of the SpeakerTable): the Filtered-most ranking equals the
spec-described selection — speakers with zero matching records are
excluded entirely, among the remaining ones the first encountered with the
maximum match count is picked, and no candidate yields no result. -/
theorem getFilteredSpeaker_spec (speakers : ISpeaker) (fo : IFilterOptions)
    (h : (speakers.map fun p => dispName p.2).Nodup) :
    getFilteredSpeaker speakers fo = specFilteredMost speakers fo := by
  have hf := filterForSpeakers_eq_specCands speakers fo h
  simp only [getFilteredSpeaker, specFilteredMost, hf]
  cases hc : specCands speakers fo with
  | nil => simp
  | cons c cs =>
    simp [jsSort_cons_head, firstMaxBy_eq_fm]

/-- Witness for C5: a table where "A" has one match on topic "x" while "B"
and "C" tie at two matches; the first encountered, "B", is selected. -/
theorem getFilteredSpeaker_spec_witness :
    ((filterTieTable.map fun p => dispName p.2).Nodup) ∧
      getFilteredSpeaker filterTieTable topicX = specFilteredMost filterTieTable topicX ∧
      getFilteredSpeaker filterTieTable topicX = some "B" :=
  ⟨by decide, getFilteredSpeaker_spec filterTieTable topicX (by decide), by decide⟩

/-- C1 counterexample: speaker "A" has a 100-word record and a record
whose `words` field is the empty string, speaker "B" has a 50-word record.
`parseInt("")` is `NaN`, which poisons A's whole sum (it is not 0 and not
100), and the ranking then selects "A"; with the malformed record absent,
it selects "B".  So a malformed record neither contributes 0 nor leaves
the selection as if it were absent. -/
theorem leastWordy_malformed_changes_result :
    getLeastWordySpeaker [spMalA, spB] = some "A" ∧
      getLeastWordySpeaker [spCleanA, spB] = some "B" ∧
      totalWords [recA100, recAbad] = none :=
  ⟨rfl, rfl, rfl⟩

/-- C1 (amended): a speech record whose `words` field does not parse makes
the speaker's entire total the `NaN` sentinel (`none`) rather than
contributing 0; the ranking does not fault, but a `NaN` total compares as
neither smaller nor greater, so the selected speaker may differ from the
one selected with the malformed record absent. -/
theorem totalWords_malformed_isNaN (l : List ISpeach) (r : ISpeach)
    (hr : r ∈ l) (hw : jsParseInt r.words = none) :
    totalWords l = none :=
  foldl_addWords_malformed l (some 0) r hr hw

/-- Witness for the amended C1 at a concrete record list. -/
theorem totalWords_malformed_isNaN_witness :
    (recAbad ∈ [recA100, recAbad]) ∧ jsParseInt recAbad.words = none ∧
      totalWords [recA100, recAbad] = none :=
  ⟨by decide, by decide,
    totalWords_malformed_isNaN [recA100, recAbad] recAbad (by decide) (by decide)⟩

/-- C2 counterexample: the first Evaluator run on Table A (valid) and
Table B (invalid) strips Table A's header in place and answers
Alice/Alice/Bob; the second run, receiving the tables as the first run
left them, finds no valid header and answers all-null — the two
EvaluationResults differ. -/
theorem evaluate_second_run_differs :
    evaluate [tableA, tableB] =
      Except.ok (⟨some "Alice", some "Alice", some "Bob"⟩, [tableA.tail, tableB]) ∧
      evaluate [tableA.tail, tableB] =
        Except.ok (⟨none, none, none⟩, [tableA.tail, tableB]) ∧
      (⟨some "Alice", some "Alice", some "Bob"⟩ : EvaluationResult) ≠ ⟨none, none, none⟩ :=
  ⟨rfl, rfl, by decide⟩

/-- C2 (amended): two Evaluator runs in sequence are guaranteed to yield
identical EvaluationResults only when no table passes header validation:
then nothing is mutated (the tables come back unchanged) and both runs
yield the all-null result.  Otherwise the first run consumes the valid
headers in place, and the second run, receiving the mutated tables, may
yield a different result. -/
theorem evaluate_idempotent_of_all_invalid (tables : List Table)
    (h : ∀ t ∈ tables, t ≠ [] ∧ validFirst t = false) :
    evaluate tables = Except.ok (⟨none, none, none⟩, tables) := by
  have h1 : ∀ t ∈ tables, t ≠ [] := fun t ht => (h t ht).1
  have h2 : ∀ t ∈ tables, validFirst t = false := fun t ht => (h t ht).2
  have hg : groupOk tables = [] := groupFold_invalid tables h2 []
  have hs : shiftValid tables = tables := shiftValid_invalid tables h2
  have hsg : sortAndGroupData tables = Except.ok (groupOk tables, shiftValid tables) :=
    sortAndGroupData_ok tables h1
  have heval : evaluate tables = Except.ok
      ({ mostSpeaches := getFilteredSpeaker (groupOk tables)
           ⟨FilterOption.filterByYear, FilterValue.num 2013⟩
         mostSecurity := getFilteredSpeaker (groupOk tables)
           ⟨FilterOption.filterByTopic, FilterValue.str "Internal Security"⟩
         leastWordy := getLeastWordySpeaker (groupOk tables) }, shiftValid tables) := by
    unfold evaluate
    rw [hsg]
  rw [heval, hg, hs]
  rfl

/-- Witness for the amended C2: a single invalid table comes back
unchanged with the all-null result, so a second run repeats it. -/
theorem evaluate_idempotent_of_all_invalid_witness :
    (∀ t ∈ [tableB], t ≠ [] ∧ validFirst t = false) ∧
      evaluate [tableB] = Except.ok (⟨none, none, none⟩, [tableB]) :=
  ⟨by decide, evaluate_idempotent_of_all_invalid [tableB] (by decide)⟩
